import Mathlib

/-!
Shallow embedding of the Audio Track Selector main process
(`src/main/src/main.ts` and `src/shared/src/types.ts`, preload bridge).

JavaScript numbers that can be NaN are modelled as `Option ℚ` (`none` = NaN);
optional (possibly `undefined`) record fields are modelled with an outer
`Option`.  JSON field values that the code tests for truthiness are modelled
by the `JVal` type.  Strings are modelled as Lean `String` / `List Char`.
-/

namespace ATS

/-- A JavaScript number: `none` models NaN, `some q` an actual (rational) value.
The floating point values produced by the program are small integer ratios,
modelled exactly as rationals. -/
abbrev JsNumber := Option ℚ

/-- A JSON field value as seen by the main process: missing (`undefined`),
null, a string, or a number. -/
inductive JVal where
  | absent
  | jnull
  | jstr (s : String)
  | jnum (q : ℚ)
deriving DecidableEq

/-- JavaScript truthiness of a `JVal`: `undefined`/`null` are falsy, a string
is truthy iff non-empty, a number is truthy iff non-zero. -/
def JVal.truthy : JVal → Bool
  | .absent => false
  | .jnull => false
  | .jstr s => s ≠ ""
  | .jnum q => q ≠ 0

/-- Value of a non-empty list of decimal digits. -/
def digitsVal (cs : List Char) : ℕ :=
  cs.foldl (fun n c => 10 * n + (c.toNat - Char.toNat '0')) 0

/-- Parse a non-empty all-digit character list, else fail. -/
def parseDecDigits (cs : List Char) : Option ℕ :=
  if cs ≠ [] ∧ cs.all Char.isDigit then some (digitsVal cs) else none

/-- Parse an unsigned decimal numeral `digits[.digits]` (either side of the
dot may be empty but not both), as JavaScript `Number` does. -/
def parseUnsigned (cs : List Char) : Option ℚ :=
  match cs.splitOn '.' with
  | [a] => (parseDecDigits a).map (fun n => (n : ℚ))
  | [a, b] =>
    if (a ≠ [] ∨ b ≠ []) ∧ a.all Char.isDigit ∧ b.all Char.isDigit then
      some ((digitsVal a : ℚ) + (digitsVal b : ℚ) / (10 : ℚ) ^ b.length)
    else none
  | _ => none

/-- Model of JavaScript `Number(s)` on the strings this program feeds it
(prober field values and progress-line values): the empty string converts
to `0`, an optionally signed decimal numeral to its value, anything else
to NaN (`none`). -/
def parseNumChars (cs : List Char) : JsNumber :=
  if cs = [] then some 0
  else
    match cs with
    | '-' :: rest => (parseUnsigned rest).map (fun q => -q)
    | '+' :: rest => parseUnsigned rest
    | _ => parseUnsigned cs

/-- Model of JavaScript `Number(v)` on a JSON field value. -/
def JVal.toNumber : JVal → JsNumber
  | .absent => none
  | .jnull => some 0
  | .jstr s => parseNumChars s.data
  | .jnum q => some q

/-- The conditional-conversion idiom of `main.ts` lines 132–141:
`v ? Number(v) : undefined` — a falsy field is left `undefined`, a truthy
one is converted with `Number` (which may yield NaN). -/
def numericField (v : JVal) : Option JsNumber :=
  if v.truthy then some v.toNumber else none

/-- One entry of the prober's `streams` array, with the fields the code
reads (`main.ts` lines 123–137). -/
structure JStream where
  codec_type : Option String
  index : Int
  codec_name : Option String
  channels : Option Int
  sample_rate : JVal
  bit_rate : JVal
  tags : Option (List (String × String))
deriving DecidableEq

/-- The prober's `format` object, with the fields the code reads
(`main.ts` lines 139–147). -/
structure JFormat where
  duration : JVal
  format_name : Option String
  format_long_name : Option String
deriving DecidableEq

/-- The parsed prober stdout: `streams` is `some` a list exactly when the
JSON value's `streams` field is an array; `format` is optional. -/
structure FfprobeJson where
  streams : Option (List JStream)
  format : Option JFormat
deriving DecidableEq

/-- `AudioTrackInfo` of `src/shared/src/types.ts` (the numeric fields carry
the NaN-aware `JsNumber`). -/
structure AudioTrackInfo where
  audioIndex : ℕ
  streamIndex : Int
  codecName : Option String
  channels : Option Int
  sampleRate : Option JsNumber
  bitRate : Option JsNumber
  tags : Option (List (String × String))
deriving DecidableEq

/-- `ProbeResult` of `src/shared/src/types.ts`. -/
structure ProbeResult where
  filePath : String
  duration : Option JsNumber
  formatName : Option String
  formatLongName : Option String
  audioTracks : List AudioTrackInfo
deriving DecidableEq

/-- The track built for an audio-typed stream, given the running dense
counter `i` (`main.ts` lines 127–135). -/
def mkTrack (i : ℕ) (s : JStream) : AudioTrackInfo :=
  { audioIndex := i
    streamIndex := s.index
    codecName := s.codec_name
    channels := s.channels
    sampleRate := numericField s.sample_rate
    bitRate := numericField s.bit_rate
    tags := s.tags }

/-- The stream loop of `main.ts` lines 122–137: keep audio-typed streams,
incrementing the dense `audioIndex` counter only on kept streams. -/
def buildTracks : List JStream → ℕ → List AudioTrackInfo
  | [], _ => []
  | s :: rest, i =>
    if s.codec_type = some "audio" then
      mkTrack i s :: buildTracks rest (i + 1)
    else
      buildTracks rest i

/-- The `ProbeResult` construction of `main.ts` lines 118–149 from an
already-parsed prober stdout. -/
def parseProbeOutput (filePath : String) (j : FfprobeJson) : ProbeResult :=
  { filePath := filePath
    duration := numericField (match j.format with
      | some fo => fo.duration
      | none => JVal.absent)
    formatName := (match j.format with
      | some fo => fo.format_name
      | none => none)
    formatLongName := (match j.format with
      | some fo => fo.format_long_name
      | none => none)
    audioTracks := buildTracks (j.streams.getD []) 0 }

/-- Outcome of the probe promise. -/
inductive ProbeOutcome where
  | ok (r : ProbeResult)
  | err (msg : String)
deriving DecidableEq

/-- The `close` handler of `runFfprobe` (`main.ts` lines 108–153): a
non-zero exit code rejects with a message carrying the trimmed captured
stderr; otherwise `JSON.parse` of stdout either fails (modelled by
`parsed = none`) and the promise rejects with the parse error, or
succeeds and the promise resolves with the built `ProbeResult`. -/
def runFfprobeClose (filePath : String) (code : ℤ) (errorOutput : String)
    (parsed : Option FfprobeJson) : ProbeOutcome :=
  if code ≠ 0 then
    .err ("ffprobe exited with code " ++ toString code ++ ". " ++ errorOutput.trim)
  else
    match parsed with
    | none => .err "Unexpected token in JSON"
    | some p => .ok (parseProbeOutput filePath p)

/-- Model of JavaScript `buffer.split(/\r?\n/)` on a character list: split at
every `\n`, consuming a `\r` immediately before it; always returns at least
one (possibly empty) part. -/
def splitRN : List Char → List (List Char)
  | [] => [[]]
  | '\n' :: rest => [] :: splitRN rest
  | '\r' :: '\n' :: rest => [] :: splitRN rest
  | c :: rest =>
    match splitRN rest with
    | [] => [[c]]
    | l :: ls => (c :: l) :: ls

/-- One `data` callback of the extraction stdout handler (`main.ts` lines
195–198): append the chunk to the carry buffer, split on line breaks, keep
the trailing (possibly incomplete) part as the new carry, and hand the
complete lines on for processing. -/
def chunkStep (buffer chunk : List Char) : List (List Char) × List Char :=
  let parts := splitRN (buffer ++ chunk)
  (parts.dropLast, parts.getLastD [])

/-- Fold `chunkStep` over a whole sequence of stdout chunks, starting from a
given carry buffer; returns all complete lines processed, in order, and the
final carry. -/
def runChunks (buffer : List Char) : List (List Char) → List (List Char) × List Char
  | [] => ([], buffer)
  | chunk :: rest =>
    let step := chunkStep buffer chunk
    let tail := runChunks step.2 rest
    (step.1 ++ tail.1, tail.2)

/-- `ExtractProgressEvent` of `src/shared/src/types.ts`. -/
structure ExtractProgressEvent where
  audioIndex : ℕ
  progress : JsNumber
deriving DecidableEq

/-- The per-line processing of `main.ts` lines 199–212: destructure
`line.split("=")` into key and (optional) value; when the key is
`out_time_ms` and the request's duration is truthy, emit an event with
`progress = Math.min(Number(value) / (duration * 1000000), 1)` (NaN
propagates through both the division and `Math.min`). The request duration
is `none` when absent (`undefined`, and the NaN case behaves the same since
both are falsy). -/
def lineProgress (duration : Option ℚ) (audioIndex : ℕ) (line : List Char) :
    Option ExtractProgressEvent :=
  let parts := line.splitOn '='
  let key := parts.headD []
  let value := parts[1]?
  match duration with
  | none => none
  | some d =>
    if key = "out_time_ms".data ∧ d ≠ 0 then
      let ms : JsNumber := match value with
        | none => none
        | some v => parseNumChars v
      some { audioIndex := audioIndex
             progress := (ms.map (fun m => m / (d * 1000000))).map (fun x => min x 1) }
    else none

/-- The `out_time_ms` value carried by a progress line, if the line's key is
`out_time_ms` (the converted value itself may be NaN). -/
def msOfLine (line : List Char) : Option JsNumber :=
  let parts := line.splitOn '='
  if parts.headD [] = "out_time_ms".data then
    some (match parts[1]? with
      | none => none
      | some v => parseNumChars v)
  else none

/-- All `extract-progress` events emitted by one extraction job whose stdout
arrives as the given chunks (`main.ts` lines 195–213). -/
def extractionEvents (duration : Option ℚ) (audioIndex : ℕ)
    (chunks : List (List Char)) : List ExtractProgressEvent :=
  (runChunks [] chunks).1.filterMap (lineProgress duration audioIndex)

/-- The deterministic output path `path.join(outputDir, "track_<i>.wav")` of
`main.ts` line 164 (join modelled as separator concatenation). -/
def outputPathFor (outputDir : String) (audioIndex : ℕ) : String :=
  outputDir ++ "/track_" ++ toString audioIndex ++ ".wav"

/-- The encoder argument list of `main.ts` lines 171–188. -/
def ffmpegArgs (filePath : String) (audioIndex : ℕ) (outputPath : String) :
    List String :=
  ["-y", "-i", filePath, "-map", "0:a:" ++ toString audioIndex, "-vn",
   "-ac", "2", "-ar", "48000", "-c:a", "pcm_s16le",
   "-progress", "pipe:1", "-nostats", outputPath]

/-- `ExtractTrackResponse` of `src/shared/src/types.ts`. -/
structure ExtractTrackResponse where
  audioIndex : ℕ
  outputPath : String
deriving DecidableEq

/-- Outcome of the extraction promise. -/
inductive ExtractOutcome where
  | ok (r : ExtractTrackResponse)
  | err (msg : String)
deriving DecidableEq

/-- The `close` handler of `runFfmpegExtraction` (`main.ts` lines 219–226):
exit code 0 resolves with the audio index and output path, any other exit
code rejects with a message carrying the trimmed captured stderr. -/
def runFfmpegClose (audioIndex : ℕ) (outputPath : String) (code : ℤ)
    (stderrOutput : String) : ExtractOutcome :=
  if code ≠ 0 then
    .err ("ffmpeg exited with code " ++ toString code ++ ". " ++ stderrOutput.trim)
  else
    .ok { audioIndex := audioIndex, outputPath := outputPath }

/-- Log level of `LogEvent` (`src/shared/src/types.ts`). -/
inductive LogLevel where
  | info
  | error
deriving DecidableEq

/-- `LogEvent` of `src/shared/src/types.ts`. -/
structure LogEvent where
  level : LogLevel
  message : String
deriving DecidableEq

/-- The mutable module state of the main process that the temp-directory
logic touches: the `tempDir` variable (`main.ts` line 20). -/
structure MainState where
  tempDir : Option String
deriving DecidableEq

/-- Outcome of the `fs.rm` call inside `cleanupTempDir`. -/
inductive RmOutcome where
  | success
  | failure (msg : String)
deriving DecidableEq

/-- `cleanupTempDir` (`main.ts` lines 47–60): a no-op when no session
directory exists; otherwise the recursive removal is attempted, a failure is
caught and logged (never rethrown), and the directory reference is cleared
in either case. -/
def cleanupTempDir (s : MainState) (rm : RmOutcome) : MainState × List LogEvent :=
  match s.tempDir with
  | none => (s, [])
  | some _ =>
    match rm with
    | .success => ({ tempDir := none }, [])
    | .failure m =>
      ({ tempDir := none },
       [{ level := .error, message := "Failed to clean temp directory: " ++ m }])

/-- `ensureTempDir` (`main.ts` lines 38–45): return the existing session
directory if one is set, else record the freshly created one (`fresh`
stands for the result of `fs.mkdtemp`). -/
def ensureTempDir (s : MainState) (fresh : String) : MainState × String :=
  match s.tempDir with
  | some d => (s, d)
  | none => ({ tempDir := some fresh }, fresh)

/-- The `probe-file` IPC handler (`main.ts` lines 251–263): cleans the
session temp directory first, then runs the probe. -/
def probeFileHandler (s : MainState) (rm : RmOutcome) (filePath : String)
    (code : ℤ) (errO : String) (parsed : Option FfprobeJson) :
    MainState × List LogEvent × ProbeOutcome :=
  let cleaned := cleanupTempDir s rm
  (cleaned.1, cleaned.2, runFfprobeClose filePath code errO parsed)

/-- The `cleanup-temp` IPC handler (`main.ts` lines 278–280). -/
def cleanupTempHandler (s : MainState) (rm : RmOutcome) : MainState × List LogEvent :=
  cleanupTempDir s rm

/-- The `before-quit` handler (`main.ts` lines 283–285). -/
def beforeQuitHandler (s : MainState) (rm : RmOutcome) : MainState × List LogEvent :=
  cleanupTempDir s rm

/-- The dialog result consumed by the `open-file` handler. -/
structure OpenDialogResult where
  canceled : Bool
  filePaths : List String
deriving DecidableEq

/-- The `open-file` IPC handler (`main.ts` lines 235–249): `null` when the
dialog was canceled or returned no paths, else the first selected path. -/
def openFileHandler (r : OpenDialogResult) : Option String :=
  if r.canceled = true ∨ r.filePaths.length = 0 then none
  else r.filePaths.head?

/-- Modelled from the spec: the Track Registry lifecycle states of spec
§4.2 (`Idle`, `Extracting`, `Ready`, `Disabled-Cached`, `Failed`); the
registry lives in renderer code that is not among the provided source
files. -/
inductive Lifecycle where
  | idle
  | extracting
  | ready
  | disabledCached
  | failed
deriving DecidableEq

/-- Modelled from the spec: the fields of a `TrackRecord` (spec §3) that
extraction deduplication depends on — the lifecycle state, the enabled
flag, the session-cached `decodedPath`, and the error message. -/
structure TrackRecord where
  lifecycle : Lifecycle
  enabled : Bool
  decodedPath : Option String
  error : Option String
deriving DecidableEq

/-- The registry state: one `TrackRecord` per `audioIndex`. -/
def RegState : Type := ℕ → TrackRecord

/-- The record of a never-enabled track. -/
def initRecord : TrackRecord :=
  { lifecycle := .idle, enabled := false, decodedPath := none, error := none }

/-- The registry state right after probing. -/
def initRegState : RegState := fun _ => initRecord

/-- Replace the record of one `audioIndex`. -/
def RegState.set (s : RegState) (i : ℕ) (r : TrackRecord) : RegState :=
  fun j => if j = i then r else s j

/-- Events driving the registry: user enable/disable, and completion of an
extraction job. -/
inductive RegEvent where
  | enable (i : ℕ)
  | disable (i : ℕ)
  | extractionSuccess (i : ℕ) (path : String)
  | extractionFailure (i : ℕ) (msg : String)
deriving DecidableEq

/-- The side effect a registry transition can request: spawning one
extraction process. -/
inductive RegAction where
  | spawnExtraction (i : ℕ)
deriving DecidableEq

/-- Modelled from the spec: the Track Registry transition function of spec
§4.2 and §5 (the registry itself is renderer code not among the provided
source files). Enabling a track with a session-cached decode goes directly
to `Ready` without a new job; enabling from `Idle`/`Failed` with no cache
starts extraction; enabling while `Extracting` observes the existing job
and spawns nothing. Disabling from `Ready` retains the decode
(`Disabled-Cached`); a job completion while not `Extracting` is an orphaned
result and is discarded. `decodedPath` is never cleared within a session. -/
def registryStep (s : RegState) : RegEvent → RegState × List RegAction
  | .enable i =>
    let r := s i
    if r.decodedPath ≠ none then
      (s.set i { r with lifecycle := .ready, enabled := true }, [])
    else if r.lifecycle = .idle ∨ r.lifecycle = .failed then
      (s.set i { r with lifecycle := .extracting, enabled := true },
       [.spawnExtraction i])
    else
      (s.set i { r with enabled := true }, [])
  | .disable i =>
    let r := s i
    if r.lifecycle = .ready then
      (s.set i { r with lifecycle := .disabledCached, enabled := false }, [])
    else
      (s.set i { r with enabled := false }, [])
  | .extractionSuccess i p =>
    let r := s i
    if r.lifecycle = .extracting then
      (s.set i { r with
        lifecycle := if r.enabled then .ready else .disabledCached
        decodedPath := some p }, [])
    else
      (s, [])
  | .extractionFailure i m =>
    let r := s i
    if r.lifecycle = .extracting then
      (s.set i { r with lifecycle := .failed, error := some m }, [])
    else
      (s, [])

/-- Run the registry through a sequence of events. -/
def runRegistry (s : RegState) : List RegEvent → RegState
  | [] => s
  | e :: rest => runRegistry (registryStep s e).1 rest

/-- A prober stream entry whose `sample_rate` is the non-numeric string
`"N/A"` (concrete test vector). -/
def streamNA : JStream :=
  { codec_type := some "audio"
    index := 2
    codec_name := some "aac"
    channels := some 2
    sample_rate := JVal.jstr "N/A"
    bit_rate := JVal.absent
    tags := none }

/-- A parsed prober stdout holding just `streamNA` (concrete test vector). -/
def probeJsonNA : FfprobeJson :=
  { streams := some [streamNA], format := none }

/-- A registry state whose track 0 has an extraction job in flight
(concrete test vector). -/
def extractingState : RegState :=
  initRegState.set 0
    { lifecycle := .extracting, enabled := true, decodedPath := none, error := none }

/-- A registry state whose track 0 completed extraction and is `Ready`
(concrete test vector). -/
def readyState : RegState :=
  initRegState.set 0
    { lifecycle := .ready, enabled := true,
      decodedPath := some "/tmp/session/track_0.wav", error := none }

/-! ## Helper lemmas about the progress-line splitter -/

theorem splitRN_ne_nil (x : List Char) : splitRN x ≠ [] := by
  induction x using splitRN.induct with
  | case1 => simp [splitRN]
  | case2 rest ih => simp [splitRN]
  | case3 rest ih => simp [splitRN]
  | case4 c rest h1 h2 heq ih => exact absurd heq ih
  | case5 c rest h1 h2 l ls heq ih =>
    have e : splitRN (c :: rest) = (c :: l) :: ls := by
      rw [splitRN, heq]
      · exact h1
      · exact h2
    simp [e]

theorem getLastD_append (A B : List (List Char)) (h : B ≠ []) :
    (A ++ B).getLastD [] = B.getLastD [] := by
  cases hB : B.getLast? with
  | none => exact absurd (List.getLast?_eq_none_iff.mp hB) h
  | some b =>
    simp [List.getLastD_eq_getLast?, List.getLast?_append_of_ne_nil _ h, hB]

theorem splitRN_singleton (x l : List Char) (h : splitRN x = [l]) : l = x := by
  induction x using splitRN.induct generalizing l with
  | case1 => simpa [splitRN] using h
  | case2 rest ih =>
    rw [splitRN] at h
    cases hr : splitRN rest with
    | nil => exact absurd hr (splitRN_ne_nil rest)
    | cons a as => rw [hr] at h; simp at h
  | case3 rest ih =>
    rw [splitRN] at h
    cases hr : splitRN rest with
    | nil => exact absurd hr (splitRN_ne_nil rest)
    | cons a as => rw [hr] at h; simp at h
  | case4 c rest h1 h2 heq ih => exact absurd heq (splitRN_ne_nil rest)
  | case5 c rest h1 h2 l0 ls heq ih =>
    have e : splitRN (c :: rest) = (c :: l0) :: ls := by
      rw [splitRN, heq]
      · exact h1
      · exact h2
    rw [e] at h
    cases h' : ls with
    | nil =>
      subst h'
      simp at h
      have hl0 := ih l0 heq
      rw [← h, hl0]
    | cons a as => subst h'; simp at h

theorem splitRN_append (x y : List Char) :
    splitRN (x ++ y) = (splitRN x).dropLast ++ splitRN ((splitRN x).getLastD [] ++ y) := by
  induction x using splitRN.induct with
  | case1 => simp [splitRN]
  | case2 rest ih =>
    have e : splitRN ('\n' :: rest) = [] :: splitRN rest := by rw [splitRN]
    have e2 : splitRN (('\n' :: rest) ++ y) = [] :: splitRN (rest ++ y) := by
      rw [List.cons_append, splitRN]
    rw [e2, e, ih]
    cases hr : splitRN rest with
    | nil => exact absurd hr (splitRN_ne_nil rest)
    | cons a as => simp [List.dropLast, List.getLastD]
  | case3 rest ih =>
    have e : splitRN ('\r' :: '\n' :: rest) = [] :: splitRN rest := by rw [splitRN]
    have e2 : splitRN (('\r' :: '\n' :: rest) ++ y) = [] :: splitRN (rest ++ y) := by
      rw [List.cons_append, List.cons_append, splitRN]
    rw [e2, e, ih]
    cases hr : splitRN rest with
    | nil => exact absurd hr (splitRN_ne_nil rest)
    | cons a as => simp [List.dropLast, List.getLastD]
  | case4 c rest h1 h2 heq ih => exact absurd heq (splitRN_ne_nil rest)
  | case5 c rest h1 h2 l0 ls heq ih =>
    have e : splitRN (c :: rest) = (c :: l0) :: ls := by
      rw [splitRN, heq]
      · exact h1
      · exact h2
    cases ls with
    | nil =>
      have hl0 : l0 = rest := splitRN_singleton rest l0 heq
      rw [e, hl0]
      simp
    | cons l1 ls' =>
      have hrest : rest ≠ [] := by
        intro h0
        subst h0
        simp [splitRN] at heq
      obtain ⟨r, rs, hr⟩ : ∃ r rs, rest = r :: rs := by
        cases rest with
        | nil => exact absurd rfl hrest
        | cons r rs => exact ⟨r, rs, rfl⟩
      have e2 : splitRN ((c :: rest) ++ y) =
          match splitRN (rest ++ y) with
          | [] => [[c]]
          | l :: ls => (c :: l) :: ls := by
        rw [List.cons_append, splitRN]
        all_goals first
          | rfl
          | exact h1
          | (intro rest1 hc hh
             subst hr
             rw [List.cons_append] at hh
             have hrn : r = '\n' := by injection hh
             exact h2 rs hc (by rw [hrn]))
      rw [e2, ih, heq, e]
      simp [List.dropLast, List.getLastD]

theorem splitRN_carry (x : List Char) :
    splitRN ((splitRN x).getLastD []) = [(splitRN x).getLastD []] := by
  induction x using splitRN.induct with
  | case1 => simp [splitRN]
  | case2 rest ih =>
    have e : splitRN ('\n' :: rest) = [] :: splitRN rest := by rw [splitRN]
    rw [e]
    cases hr : splitRN rest with
    | nil => exact absurd hr (splitRN_ne_nil rest)
    | cons a as =>
      rw [hr] at ih
      simpa [List.getLastD] using ih
  | case3 rest ih =>
    have e : splitRN ('\r' :: '\n' :: rest) = [] :: splitRN rest := by rw [splitRN]
    rw [e]
    cases hr : splitRN rest with
    | nil => exact absurd hr (splitRN_ne_nil rest)
    | cons a as =>
      rw [hr] at ih
      simpa [List.getLastD] using ih
  | case4 c rest h1 h2 heq ih => exact absurd heq (splitRN_ne_nil rest)
  | case5 c rest h1 h2 l0 ls heq ih =>
    have e : splitRN (c :: rest) = (c :: l0) :: ls := by
      rw [splitRN, heq]
      · exact h1
      · exact h2
    rw [e]
    cases ls with
    | nil =>
      have hl0 : l0 = rest := splitRN_singleton rest l0 heq
      simp [List.getLastD]
      rw [hl0, e, hl0]
    | cons l1 ls' =>
      rw [heq] at ih
      simpa [List.getLastD] using ih

theorem runChunks_spec (chunks : List (List Char)) (buf : List Char)
    (hbuf : splitRN buf = [buf]) :
    runChunks buf chunks =
      ((splitRN (buf ++ chunks.flatten)).dropLast,
       (splitRN (buf ++ chunks.flatten)).getLastD []) := by
  induction chunks generalizing buf with
  | nil => simp [runChunks, hbuf]
  | cons chunk rest ih =>
    have hc : splitRN ((splitRN (buf ++ chunk)).getLastD []) =
        [(splitRN (buf ++ chunk)).getLastD []] := splitRN_carry (buf ++ chunk)
    have hrec := ih ((splitRN (buf ++ chunk)).getLastD []) hc
    have happ := splitRN_append (buf ++ chunk) rest.flatten
    have hne : splitRN ((splitRN (buf ++ chunk)).getLastD [] ++ rest.flatten) ≠ [] :=
      splitRN_ne_nil _
    simp only [runChunks, chunkStep, hrec]
    rw [List.flatten_cons, ← List.append_assoc, happ,
      List.dropLast_append_of_ne_nil _ hne, getLastD_append _ _ hne]

theorem lineProgress_some (d : ℚ) (hd : d ≠ 0) (i : ℕ) (l : List Char) :
    lineProgress (some d) i l =
      (msOfLine l).map (fun ms =>
        { audioIndex := i
          progress := (ms.map (fun m => m / (d * 1000000))).map (fun x => min x 1) }) := by
  unfold lineProgress msOfLine
  dsimp only
  have hcond : (((l.splitOn '=').headD [] = "out_time_ms".data) ∧ ¬d = 0) ↔
      ((l.splitOn '=').headD [] = "out_time_ms".data) := and_iff_left hd
  rw [if_congr hcond rfl rfl]
  split
  · simp [Option.map_map]
  · simp

theorem events_eq_map (d : ℚ) (hd : d ≠ 0) (i : ℕ) (chunks : List (List Char)) :
    extractionEvents (some d) i chunks =
      ((runChunks [] chunks).1.filterMap msOfLine).map (fun ms =>
        { audioIndex := i
          progress := (ms.map (fun m => m / (d * 1000000))).map (fun x => min x 1) }) := by
  unfold extractionEvents
  have hfun : lineProgress (some d) i = fun l =>
      (msOfLine l).map (fun ms =>
        { audioIndex := i
          progress := (ms.map (fun m => m / (d * 1000000))).map (fun x => min x 1) }) :=
    funext (fun l => lineProgress_some d hd i l)
  rw [hfun, ← List.map_filterMap]

/-! ## Helper lemmas about the probe parser and the registry -/

theorem buildTracks_length (l : List JStream) (i : ℕ) :
    (buildTracks l i).length
      = (l.filter (fun s => s.codec_type = some "audio")).length := by
  induction l generalizing i with
  | nil => rfl
  | cons s rest ih =>
    by_cases h : s.codec_type = some "audio"
    · simp [buildTracks, h, List.filter_cons, ih]
    · simp [buildTracks, h, List.filter_cons, ih]

theorem buildTracks_getElem (l : List JStream) (i k : ℕ) :
    (buildTracks l i)[k]?
      = (l.filter (fun s => s.codec_type = some "audio"))[k]?.map (mkTrack (i + k)) := by
  induction l generalizing i k with
  | nil => simp [buildTracks]
  | cons s rest ih =>
    by_cases h : s.codec_type = some "audio"
    · cases k with
      | zero => simp [buildTracks, h, List.filter_cons]
      | succ k =>
        have e : i + (k + 1) = (i + 1) + k := by omega
        simp [buildTracks, h, List.filter_cons, ih (i + 1) k, e]
    · simp [buildTracks, h, List.filter_cons, ih]

theorem RegState.set_get (s : RegState) (k : ℕ) (r : TrackRecord) (i : ℕ) :
    (s.set k r) i = if i = k then r else s i := rfl

theorem registryStep_preserves_decoded (s : RegState) (e : RegEvent) (i : ℕ)
    (h : (s i).decodedPath ≠ none) :
    (((registryStep s e).1) i).decodedPath ≠ none := by
  cases e <;> simp only [registryStep] <;> split_ifs <;>
    simp_all [RegState.set_get] <;> split_ifs <;> simp_all

theorem runRegistry_preserves_decoded (es : List RegEvent) (s : RegState) (i : ℕ)
    (h : (s i).decodedPath ≠ none) :
    ((runRegistry s es) i).decodedPath ≠ none := by
  induction es generalizing s with
  | nil => exact h
  | cons e rest ih => exact ih _ (registryStep_preserves_decoded s e i h)

/-! ## Claim theorems -/

/-- C1 (counterexample): with a known duration of 10 seconds, the stdout
lines `out_time_ms=5000000` then `out_time_ms=-5000000` make the extraction
handler emit progress 1/2 followed by -1/2 — a value outside [0,1], a
decreasing step, and a final value other than 1 — so the emitted values are
not `clamp(elapsed/total, 0, 1)`: the code clamps from above only. -/
theorem extract_progress_counterexample :
    (extractionEvents (some 10) 0
        [("out_time_ms=5000000\nout_time_ms=-5000000\n").data]).map (fun e => e.progress)
      = [some (1/2 : ℚ), some (-(1/2) : ℚ)]
    ∧ ¬((0 : ℚ) ≤ -(1/2)) ∧ ¬((1/2 : ℚ) ≤ -(1/2))
    ∧ (some (-(1/2) : ℚ) ≠ some (1 : ℚ)) := by
  have hlines : (runChunks []
        [("out_time_ms=5000000\nout_time_ms=-5000000\n").data]).1.filterMap msOfLine
      = [some (5000000 : ℚ), some (-5000000 : ℚ)] := by decide
  refine ⟨?_, by norm_num, by norm_num, by norm_num⟩
  rw [events_eq_map 10 (by norm_num) 0 _, hlines]
  simp [min_def]
  norm_num

/-- C1 (amended): with a positive known duration `d`, every emitted progress
value is `min(out_time_ms / (d·10⁶), 1)` — clamped above at 1 but not below
at 0; whenever all parsed `out_time_ms` values are non-negative every
emitted value lies in [0,1]; whenever they are non-decreasing so is the
emitted sequence; and the final emitted value is exactly 1 iff the last
`out_time_ms` is at least `d·10⁶`. -/
theorem extract_progress_amended (d : ℚ) (i : ℕ) (chunks : List (List Char))
    (qs : List ℚ) (hd : 0 < d)
    (hqs : (runChunks [] chunks).1.filterMap msOfLine = qs.map some) :
    ((extractionEvents (some d) i chunks).map (fun e => e.progress)
        = qs.map (fun q => some (min (q / (d * 1000000)) 1)))
    ∧ ((∀ q ∈ qs, 0 ≤ q) →
        ∀ p ∈ (extractionEvents (some d) i chunks).map (fun e => e.progress),
          ∃ r : ℚ, p = some r ∧ 0 ≤ r ∧ r ≤ 1)
    ∧ (qs.Chain' (· ≤ ·) →
        (qs.map (fun q => min (q / (d * 1000000)) 1)).Chain' (· ≤ ·))
    ∧ (qs ≠ [] →
        (((extractionEvents (some d) i chunks).map (fun e => e.progress)).getLast?
            = some (some 1) ↔ d * 1000000 ≤ qs.getLastD 0)) := by
  have hd' : d ≠ 0 := ne_of_gt hd
  have hden : (0 : ℚ) < d * 1000000 := by positivity
  have hev : (extractionEvents (some d) i chunks).map (fun e => e.progress)
      = qs.map (fun q => some (min (q / (d * 1000000)) 1)) := by
    rw [events_eq_map d hd' i chunks, hqs, List.map_map, List.map_map]
    simp [Function.comp]
  refine ⟨hev, ?_, ?_, ?_⟩
  · intro hnn p hp
    rw [hev] at hp
    obtain ⟨q, hq, rfl⟩ := List.mem_map.mp hp
    refine ⟨min (q / (d * 1000000)) 1, rfl, ?_, min_le_right _ _⟩
    exact le_min (div_nonneg (hnn q hq) (le_of_lt hden)) zero_le_one
  · intro hchain
    rw [List.chain'_map]
    refine hchain.imp ?_
    intro a b hab
    exact min_le_min (by gcongr) le_rfl
  · intro hne
    rw [hev, List.getLast?_map]
    obtain ⟨q, hq⟩ : ∃ q, qs.getLast? = some q := by
      cases h : qs.getLast? with
      | none => exact absurd (List.getLast?_eq_none_iff.mp h) hne
      | some q => exact ⟨q, rfl⟩
    rw [hq]
    have hlast : qs.getLastD 0 = q := by
      rw [List.getLastD_eq_getLast?, hq]
      rfl
    rw [hlast]
    simp only [Option.map_some', Option.some.injEq]
    constructor
    · intro h1
      have h3 : (1 : ℚ) ≤ q / (d * 1000000) := min_eq_right_iff.mp h1
      exact (one_le_div hden).mp h3
    · intro h1
      have h3 : (1 : ℚ) ≤ q / (d * 1000000) := (one_le_div hden).mpr h1
      rw [min_eq_right h3]

/-- C1 (witness for the amended theorem): duration 10 s, three in-order
non-negative `out_time_ms` lines. -/
theorem extract_progress_amended_witness :
    (extractionEvents (some 10) 0
        [("out_time_ms=2000000\nout_time_ms=6000000\nout_time_ms=10000000\n").data]).map
          (fun e => e.progress)
      = ([2000000, 6000000, 10000000] : List ℚ).map
          (fun q => some (min (q / (10 * 1000000)) 1)) :=
  (extract_progress_amended 10 0
    [("out_time_ms=2000000\nout_time_ms=6000000\nout_time_ms=10000000\n").data]
    [2000000, 6000000, 10000000] (by norm_num) (by decide)).1

/-- C2: for every registry state and `audioIndex i`, (a) an enable request
while a job for `i` is in flight (state `Extracting`, no cached decode)
emits no spawn action and leaves the job observed (still `Extracting`, with
no cached decode); (b) a spawn action is only ever emitted from a
non-`Extracting` state with no cached decode, and puts the track into
`Extracting`; (c) a successful completion caches the decoded path; (d) once
a decoded path is cached it persists through any later event sequence, and
an enable request then spawns no process. -/
theorem registry_no_duplicate_extraction (s : RegState) (i : ℕ) :
    ((s i).lifecycle = .extracting → (s i).decodedPath = none →
        (registryStep s (.enable i)).2 = []
        ∧ ((registryStep s (.enable i)).1 i).lifecycle = .extracting
        ∧ ((registryStep s (.enable i)).1 i).decodedPath = none)
    ∧ ((registryStep s (.enable i)).2 ≠ [] →
        (s i).lifecycle ≠ .extracting ∧ (s i).decodedPath = none
        ∧ ((registryStep s (.enable i)).1 i).lifecycle = .extracting)
    ∧ (∀ p, (s i).lifecycle = .extracting →
        (((registryStep s (.extractionSuccess i p)).1) i).decodedPath = some p)
    ∧ ((s i).decodedPath ≠ none → ∀ es : List RegEvent,
        ((runRegistry s es) i).decodedPath ≠ none
        ∧ (registryStep (runRegistry s es) (.enable i)).2 = []) := by
  refine ⟨?_, ?_, ?_, ?_⟩
  · intro hx hdec
    simp only [registryStep]
    split_ifs with h1 h2 <;> simp_all [RegState.set_get]
  · intro hact
    simp only [registryStep] at hact ⊢
    split_ifs at hact ⊢ with h1 h2 <;> simp_all [RegState.set_get]
    rcases h2 with h2 | h2 <;> simp [h2]
  · intro p hx
    simp only [registryStep]
    split_ifs <;> simp_all [RegState.set_get]
  · intro hdec es
    have hrun := runRegistry_preserves_decoded es s i hdec
    refine ⟨hrun, ?_⟩
    simp [registryStep, hrun]

/-- C2 (witness): enabling track 0 while it is `Extracting` spawns nothing
and keeps it `Extracting`; after track 0 reached `Ready` with a cached
decode, a disable followed by a re-enable leaves the cache set and the
re-enable spawns nothing. -/
theorem registry_no_duplicate_extraction_witness :
    ((registryStep extractingState (RegEvent.enable 0)).2 = []
      ∧ ((registryStep extractingState (RegEvent.enable 0)).1 0).lifecycle
          = Lifecycle.extracting
      ∧ ((registryStep extractingState (RegEvent.enable 0)).1 0).decodedPath = none)
    ∧ (((runRegistry readyState [RegEvent.disable 0, RegEvent.enable 0]) 0).decodedPath
          ≠ none
      ∧ (registryStep (runRegistry readyState [RegEvent.disable 0, RegEvent.enable 0])
          (RegEvent.enable 0)).2 = []) :=
  ⟨(registry_no_duplicate_extraction extractingState 0).1 rfl rfl,
   (registry_no_duplicate_extraction readyState 0).2.2.2 (by decide)
     [RegEvent.disable 0, RegEvent.enable 0]⟩

/-- C3: the probe result's `audioTracks` list corresponds exactly, in
encounter order, to the audio-typed entries of the prober's stream list:
it has the same length, the track at position `k` carries `audioIndex = k`
(dense 0..N-1 numbering), and its `streamIndex` is the native container
index of the `k`-th audio-typed stream. -/
theorem probe_dense_audio_index (f : String) (j : FfprobeJson) (k : ℕ) :
    ((parseProbeOutput f j).audioTracks.length
        = ((j.streams.getD []).filter (fun s => s.codec_type = some "audio")).length)
    ∧ ((parseProbeOutput f j).audioTracks[k]?.map (fun t => t.audioIndex)
        = if k < ((j.streams.getD []).filter (fun s => s.codec_type = some "audio")).length
          then some k else none)
    ∧ ((parseProbeOutput f j).audioTracks[k]?.map (fun t => t.streamIndex)
        = ((j.streams.getD []).filter (fun s => s.codec_type = some "audio"))[k]?.map
            (fun s => s.index)) := by
  have hlen := buildTracks_length (j.streams.getD []) 0
  have hget := buildTracks_getElem (j.streams.getD []) 0 k
  have htracks : (parseProbeOutput f j).audioTracks = buildTracks (j.streams.getD []) 0 := rfl
  refine ⟨by rw [htracks, hlen], ?_, ?_⟩
  · rw [htracks, hget]
    by_cases hk : k < ((j.streams.getD []).filter (fun s => s.codec_type = some "audio")).length
    · obtain ⟨s, hs⟩ : ∃ s,
          ((j.streams.getD []).filter (fun s => s.codec_type = some "audio"))[k]? = some s :=
        ⟨_, List.getElem?_eq_getElem hk⟩
      simp [hs, hk, mkTrack]
    · have hnone : ((j.streams.getD []).filter (fun s => s.codec_type = some "audio"))[k]? = none := by
        rw [List.getElem?_eq_none_iff]
        omega
      simp [hnone, hk]
  · rw [htracks, hget]
    cases hs : ((j.streams.getD []).filter (fun s => s.codec_type = some "audio"))[k]? with
    | none => simp
    | some s => simp [mkTrack]

/-- C4: the progress-stream parsing is chunking-invariant — feeding the
stdout bytes in any sequence of chunks processes exactly the complete lines
of the whole stream (the trailing partial line stays in the carry buffer),
equals processing the concatenation as one single chunk, and therefore the
emitted progress events are the same for any chunking. -/
theorem chunked_parsing_invariant (chunks : List (List Char)) (duration : Option ℚ) (i : ℕ) :
    runChunks [] chunks = runChunks [] [chunks.flatten]
    ∧ (runChunks [] chunks).1 = (splitRN chunks.flatten).dropLast
    ∧ extractionEvents duration i chunks = extractionEvents duration i [chunks.flatten] := by
  have h0 : splitRN ([] : List Char) = [[]] := by rw [splitRN]
  have h1 := runChunks_spec chunks [] h0
  have h2 := runChunks_spec [chunks.flatten] [] h0
  simp only [List.nil_append, List.flatten_cons, List.flatten_nil, List.append_nil] at h1 h2
  refine ⟨h1.trans h2.symm, ?_, ?_⟩
  · rw [h1]
  · unfold extractionEvents
    rw [h1, h2]

/-- C5 (counterexample): a stream whose `sample_rate` is the truthy but
non-numeric string `"N/A"` makes the probe parser set `sampleRate` to NaN
(`some none`), not leave it unset (`none`) as the claim states. -/
theorem unset_fields_counterexample :
    ((parseProbeOutput "movie.mkv" probeJsonNA).audioTracks.map (fun t => t.sampleRate)
        = [some none])
    ∧ some (none : JsNumber) ≠ (none : Option JsNumber) := by
  refine ⟨by decide, by decide⟩

/-- C5 (amended): an absent (or otherwise falsy: null, empty-string, zero)
numeric field is left unset (`undefined`), never zero; a present non-empty
but non-numeric string yields NaN — never zero or any other number; the
per-track `sampleRate`/`bitRate` fields and the format-level `duration` are
exactly this conditional conversion of the corresponding prober fields. -/
theorem unset_fields_amended (v : JVal) :
    ((v = JVal.absent ∨ v = JVal.jnull ∨ v = JVal.jstr "" ∨ v = JVal.jnum 0) →
        numericField v = none)
    ∧ (∀ s, v = JVal.jstr s → s ≠ "" → parseNumChars s.data = none →
        numericField v = some none)
    ∧ (∀ st : JStream, numericField st.sample_rate = (mkTrack 0 st).sampleRate
        ∧ numericField st.bit_rate = (mkTrack 0 st).bitRate)
    ∧ (∀ (f : String) (j : FfprobeJson),
        (parseProbeOutput f j).duration
          = numericField (match j.format with
            | some fo => fo.duration
            | none => JVal.absent)) := by
  refine ⟨?_, ?_, fun st => ⟨rfl, rfl⟩, fun f j => rfl⟩
  · rintro (rfl | rfl | rfl | rfl) <;> simp [numericField, JVal.truthy]
  · rintro s rfl hs hn
    simp [numericField, JVal.truthy, hs, JVal.toNumber, hn]

/-- C5 (witness for the amended theorem): an absent field stays unset; an
`"N/A"` field becomes NaN. -/
theorem unset_fields_amended_witness :
    numericField JVal.absent = none ∧ numericField (JVal.jstr "N/A") = some none :=
  ⟨(unset_fields_amended JVal.absent).1 (Or.inl rfl),
   (unset_fields_amended (JVal.jstr "N/A")).2.1 "N/A" rfl (by decide) (by decide)⟩

/-- C6: the probe promise rejects exactly when the prober exits non-zero or
its stdout fails to parse; on non-zero exit the error message carries the
trimmed captured stderr; on zero exit with parseable stdout it resolves
with the built `ProbeResult`. -/
theorem probe_failure_iff (f : String) (code : ℤ) (errO : String)
    (parsed : Option FfprobeJson) :
    ((∃ m, runFfprobeClose f code errO parsed = .err m) ↔ (code ≠ 0 ∨ parsed = none))
    ∧ (code ≠ 0 → runFfprobeClose f code errO parsed
        = .err ("ffprobe exited with code " ++ toString code ++ ". " ++ errO.trim))
    ∧ (∀ p, parsed = some p → code = 0 →
        runFfprobeClose f code errO parsed = .ok (parseProbeOutput f p)) := by
  unfold runFfprobeClose
  by_cases hc : code = 0
  · subst hc
    cases parsed with
    | none => simp
    | some p => simp
  · cases parsed with
    | none => simp [hc]
    | some p => simp [hc]

/-- C6 (witness): exit code 1 with stderr `" boom "` and unparseable stdout
rejects with the trimmed diagnostic in the message. -/
theorem probe_failure_iff_witness :
    runFfprobeClose "a.mkv" 1 " boom " none
      = ProbeOutcome.err
          ("ffprobe exited with code " ++ toString (1 : ℤ) ++ ". " ++ " boom ".trim) :=
  (probe_failure_iff "a.mkv" 1 " boom " none).2.1 (by decide)

/-- C7: the encoder is invoked with `-y`, mapping exactly stream `0:a:i`,
video disabled, stereo (`-ac 2`), 48 kHz (`-ar 48000`), 16-bit signed PCM
(`-c:a pcm_s16le`), writing `track_<i>.wav` inside the session temp
directory; exit code 0 resolves with exactly that output path, and a
non-zero exit rejects with the trimmed captured diagnostic text. -/
theorem extract_invocation (dir filePath : String) (i : ℕ) (code : ℤ) (sErr : String) :
    (ffmpegArgs filePath i (outputPathFor dir i)
      = ["-y", "-i", filePath, "-map", "0:a:" ++ toString i, "-vn", "-ac", "2",
         "-ar", "48000", "-c:a", "pcm_s16le", "-progress", "pipe:1", "-nostats",
         outputPathFor dir i])
    ∧ outputPathFor dir i = dir ++ "/track_" ++ toString i ++ ".wav"
    ∧ (code = 0 → runFfmpegClose i (outputPathFor dir i) code sErr
        = .ok { audioIndex := i, outputPath := outputPathFor dir i })
    ∧ (code ≠ 0 → runFfmpegClose i (outputPathFor dir i) code sErr
        = .err ("ffmpeg exited with code " ++ toString code ++ ". " ++ sErr.trim)) := by
  refine ⟨rfl, rfl, ?_, ?_⟩
  · intro h
    simp [runFfmpegClose, h]
  · intro h
    simp [runFfmpegClose, h]

/-- C7 (witness): extraction of track 3 resolves with its deterministic
output path on exit 0, and rejects with the trimmed stderr on exit 1. -/
theorem extract_invocation_witness :
    (runFfmpegClose 3 (outputPathFor "/tmp/session" 3) 0 ""
        = ExtractOutcome.ok
            { audioIndex := 3, outputPath := outputPathFor "/tmp/session" 3 })
    ∧ (runFfmpegClose 3 (outputPathFor "/tmp/session" 3) 1 " Invalid stream "
        = ExtractOutcome.err
            ("ffmpeg exited with code " ++ toString (1 : ℤ) ++ ". "
              ++ " Invalid stream ".trim)) :=
  ⟨(extract_invocation "/tmp/session" "in.mkv" 3 0 "").2.2.1 rfl,
   (extract_invocation "/tmp/session" "in.mkv" 3 1 " Invalid stream ").2.2.2 (by decide)⟩

/-- C8: when the extraction request carries no known total duration, no
progress events are emitted at all, whatever stdout the encoder produces —
in particular the progress quotient is never formed. -/
theorem no_duration_no_events (i : ℕ) (chunks : List (List Char)) :
    extractionEvents none i chunks = [] := by
  unfold extractionEvents
  induction (runChunks [] chunks).1 with
  | nil => rfl
  | cons l ls ih => simp [List.filterMap_cons, lineProgress]

/-- C9: cleanup always clears the session directory reference and never
fails: it is a no-op when no directory exists, a removal failure only
produces an error log entry, the `probe-file` handler cleans before
probing, the `cleanup-temp` and `before-quit` handlers perform the same
cleanup, and the next `ensureTempDir` after a cleanup creates a fresh
session directory. -/
theorem temp_cleanup_behavior (s : MainState) (rm : RmOutcome) (fresh : String)
    (filePath : String) (code : ℤ) (errO : String) (parsed : Option FfprobeJson) :
    ((cleanupTempDir s rm).1.tempDir = none)
    ∧ (probeFileHandler s rm filePath code errO parsed).1.tempDir = none
    ∧ (cleanupTempHandler s rm = cleanupTempDir s rm)
    ∧ (beforeQuitHandler s rm = cleanupTempDir s rm)
    ∧ (s.tempDir = none → cleanupTempDir s rm = (s, []))
    ∧ (∀ m, rm = .failure m → s.tempDir ≠ none →
        (cleanupTempDir s rm).2
          = [{ level := .error, message := "Failed to clean temp directory: " ++ m }])
    ∧ (rm = .success → (cleanupTempDir s rm).2 = [])
    ∧ (ensureTempDir (cleanupTempDir s rm).1 fresh = ({ tempDir := some fresh }, fresh)) := by
  have h1 : (cleanupTempDir s rm).1.tempDir = none := by
    cases h : s.tempDir <;> cases rm <;> simp [cleanupTempDir, h]
  refine ⟨h1, ?_, rfl, rfl, ?_, ?_, ?_, ?_⟩
  · simpa [probeFileHandler] using h1
  · intro h
    cases rm <;> simp [cleanupTempDir, h]
  · rintro m rfl h
    cases hs : s.tempDir with
    | none => exact absurd hs h
    | some d => simp [cleanupTempDir, hs]
  · rintro rfl
    cases hs : s.tempDir <;> simp [cleanupTempDir, hs]
  · cases hd : (cleanupTempDir s rm).1.tempDir with
    | none => simp [ensureTempDir, hd]
    | some d => rw [h1] at hd; exact absurd hd (by simp)

/-- C9 (witness): a failing removal of an existing session directory logs
the error message and still clears the reference, so the next
`ensureTempDir` creates a fresh directory. -/
theorem temp_cleanup_behavior_witness :
    ((cleanupTempDir { tempDir := some "/tmp/ats-x" } (RmOutcome.failure "EBUSY")).2
      = [{ level := LogLevel.error,
           message := "Failed to clean temp directory: " ++ "EBUSY" }])
    ∧ (ensureTempDir
          (cleanupTempDir { tempDir := some "/tmp/ats-x" } (RmOutcome.failure "EBUSY")).1
          "/tmp/ats-y"
        = ({ tempDir := some "/tmp/ats-y" }, "/tmp/ats-y")) :=
  ⟨(temp_cleanup_behavior { tempDir := some "/tmp/ats-x" } (RmOutcome.failure "EBUSY")
      "/tmp/ats-y" "f" 0 "" none).2.2.2.2.2.1 "EBUSY" rfl (by decide),
   (temp_cleanup_behavior { tempDir := some "/tmp/ats-x" } (RmOutcome.failure "EBUSY")
      "/tmp/ats-y" "f" 0 "" none).2.2.2.2.2.2.2⟩

/-- C10: the `open-file` handler returns `null` exactly when the dialog was
canceled or yielded no paths, and otherwise returns the first selected
path. -/
theorem open_file_result (r : OpenDialogResult) :
    (openFileHandler r = none ↔ (r.canceled = true ∨ r.filePaths = []))
    ∧ (∀ p ps, r.filePaths = p :: ps → r.canceled = false →
        openFileHandler r = some p) := by
  constructor
  · unfold openFileHandler
    split_ifs with h
    · simp only [true_iff]
      rcases h with h | h
      · exact Or.inl h
      · exact Or.inr (List.length_eq_zero.mp h)
    · rw [not_or] at h
      cases hp : r.filePaths with
      | nil => simp [hp] at h
      | cons p ps => simp [hp, h.1]
  · intro p ps hps hc
    simp [openFileHandler, hps, hc]

/-- C10 (witness): a two-file selection returns the first path; a canceled
dialog returns `null`. -/
theorem open_file_result_witness :
    (openFileHandler { canceled := false, filePaths := ["/m/a.mkv", "/m/b.mkv"] }
        = some "/m/a.mkv")
    ∧ (openFileHandler { canceled := true, filePaths := ["/m/a.mkv"] } = none) :=
  ⟨(open_file_result { canceled := false, filePaths := ["/m/a.mkv", "/m/b.mkv"] }).2
      "/m/a.mkv" ["/m/b.mkv"] rfl rfl,
   (open_file_result { canceled := true, filePaths := ["/m/a.mkv"] }).1.mpr
      (Or.inl rfl)⟩

end ATS
